import Mathlib

/-!
# Verification of the Toronto-KDTree-TreeMap spatial index

A shallow embedding of the repository's core code (`tree_utilities.py`,
`kdtree.py`) and proofs about it.

Numeric conventions of the embedding:

* Python `float` coordinates are modelled as exact rationals (`ℚ`).
* `math.sqrt` is only ever used by the code to *compare* distances
  (`dist < best[1]` and `(pivot - q)**2 < best[1]`).  Since `Real.sqrt`
  is strictly monotone on nonnegative numbers, those comparisons are
  carried out here on the *squares* of the quantities involved:
  `sqrt a < sqrt b ↔ a < b`, and for `c ≥ 0`, `c < sqrt b ↔ c^2 < b`.
  The search state therefore stores the squared Euclidean distance,
  and every comparison in the embedding is the exact image of the
  corresponding comparison in the source.
* Python's `float('inf')` initial best is modelled by `Option`:
  `none` is the "no candidate, distance = +infinity" state.
-/

/-- One municipal tree record (`tree_utilities.MunicipalTree`).
Fields appear in the constructor order of the source:
`id, ward, species, diameter, lon, lat`. -/
structure MunicipalTree where
  id : ℤ
  ward : ℤ
  species : String
  diameter : ℤ
  lon : ℚ
  lat : ℚ
deriving DecidableEq, Repr

/-- `MunicipalTree.distance_to`, except that (as explained in the header)
the *squared* Euclidean distance is returned; the source returns
`round(math.sqrt(...), 5)`. The claims below only ever compare distances,
which is faithfully done on squares. -/
def MunicipalTree.distSq (t : MunicipalTree) (lat lon : ℚ) : ℚ :=
  (t.lat - lat) ^ 2 + (t.lon - lon) ^ 2

/-- The tuple indexing `(tree.lat, tree.lon)[dim]` used throughout
`kdtree.py` (`dim = depth % 2`). -/
def axisVal (dim : ℕ) (t : MunicipalTree) : ℚ :=
  if dim = 0 then t.lat else t.lon

/-- The expression `(lat if dim == 0 else lon)` used in the query code. -/
def qAxis (dim : ℕ) (lat lon : ℚ) : ℚ :=
  if dim = 0 then lat else lon

/-- A KD-tree node (`kdtree._KDTNode`), with `nil` playing the role of
Python's `None` child/root. -/
inductive KDT where
  | nil : KDT
  | node (tree : MunicipalTree) (pivot : ℚ) (left : KDT) (right : KDT) : KDT
deriving DecidableEq, Repr

/-- `data.sort(key=lambda tree: (tree.lat, tree.lon)[dim])`: Python's
`list.sort` is a stable ascending sort by the key; `List.mergeSort` with a
left-biased `≤` comparison is exactly such a stable sort. -/
def sortByAxis (dim : ℕ) (data : List MunicipalTree) : List MunicipalTree :=
  data.mergeSort (fun a b => decide (axisVal dim a ≤ axisVal dim b))

/-- `KDTree.build_tree(data, depth)` from `kdtree.py`:
sort by the axis selected by depth parity, take the element at index
`len(data) // 2` as the median, recurse on the strict left and right
slices of the sorted data. -/
def build_tree (data : List MunicipalTree) (depth : ℕ) : KDT :=
  if h : data = [] then .nil
  else
    let dim := depth % 2
    let sorted := sortByAxis dim data
    let median_idx := data.length / 2
    have hlen : sorted.length = data.length := List.length_mergeSort data
    have hnz : data.length ≠ 0 := fun hz => h (List.eq_nil_of_length_eq_zero hz)
    have hm : median_idx < sorted.length := by
      rw [hlen]; exact Nat.div_lt_self (Nat.pos_of_ne_zero hnz) (by norm_num)
    let median_tree := sorted.get ⟨median_idx, hm⟩
    let pivot := axisVal dim median_tree
    .node median_tree pivot
      (build_tree (sorted.take median_idx) (depth + 1))
      (build_tree (sorted.drop (median_idx + 1)) (depth + 1))
termination_by data.length
decreasing_by
  · simp only [List.length_take, sortByAxis, List.length_mergeSort]
    omega
  · simp only [List.length_drop, sortByAxis, List.length_mergeSort]
    omega

/-- `KDTree.__init__(data)`: the root is `build_tree(data, 0)`. -/
def KDTree.init (data : List MunicipalTree) : KDT :=
  build_tree data 0

/-- In-order list of the records stored in a KD-tree. -/
def KDT.records : KDT → List MunicipalTree
  | .nil => []
  | .node t _ l r => l.records ++ t :: r.records

/-- Number of nodes of a KD-tree. -/
def KDT.size : KDT → ℕ
  | .nil => 0
  | .node _ _ l r => 1 + l.size + r.size

/-- Height of a KD-tree, counting nodes along the longest root-to-leaf
path (the empty tree has height 0). -/
def KDT.height : KDT → ℕ
  | .nil => 0
  | .node _ _ l r => 1 + max l.height r.height

/-- Python's `round` on integers-after-scaling: round half to even
(banker's rounding), the semantics of `round(x, 5)` idealized over `ℚ`. -/
def pyRoundHalfEven (x : ℚ) : ℤ :=
  let n := ⌊x⌋
  let f := x - n
  if f < 1/2 then n
  else if 1/2 < f then n + 1
  else if n % 2 = 0 then n else n + 1

/-- `round(x, 5)` from the lookup code, idealized over `ℚ`. -/
def round5 (x : ℚ) : ℚ :=
  (pyRoundHalfEven (x * 100000) : ℚ) / 100000

/-- `KDTree._lookup_recursive(node, lat, lon, depth)` from `kdtree.py`. -/
def lookup_recursive : KDT → ℚ → ℚ → ℕ → Bool
  | .nil, _, _, _ => false
  | .node t pv l r, lat, lon, depth =>
    if round5 lat = round5 t.lat ∧ round5 lon = round5 t.lon then true
    else
      let dim := depth % 2
      if qAxis dim lat lon < pv then lookup_recursive l lat lon (depth + 1)
      else lookup_recursive r lat lon (depth + 1)

/-- `KDTree.lookup(lat, lon)`. -/
def KDTree.lookup (root : KDT) (lat lon : ℚ) : Bool :=
  lookup_recursive root lat lon 0

/-- The running best of the nearest-neighbour search: Python's
`(None, float('inf'))` is `none`; `some (t, d)` is `(t, dist)` with `d`
the *squared* distance (see the header: the source stores
`math.sqrt(...)`, and every comparison is translated to an equivalent
comparison of squares). -/
abbrev Best := Option (MunicipalTree × ℚ)

/-- The update test `dist < best[1]` of the source:
`sqrt d < sqrt bd ↔ d < bd` (and anything beats infinity). -/
def betterThan (d : ℚ) : Best → Bool
  | none => true
  | some (_, bd) => decide (d < bd)

/-- The pruning test `(pivot - q)**2 < best[1]` of the source, with
`best[1] = sqrt bd`: since `(pivot - q)^2 ≥ 0`, it is equivalent to
`((pivot - q)^2)^2 < bd` (and holds against infinity). -/
def pruneTest (g : ℚ) : Best → Bool
  | none => true
  | some (_, bd) => decide ((g ^ 2) ^ 2 < bd)

/-- `KDTree._get_nearest_recursive(node, lat, lon, depth, best)`. -/
def get_nearest_recursive : KDT → ℚ → ℚ → ℕ → Best → Best
  | .nil, _, _, _, best => best
  | .node t pv l r, lat, lon, depth, best =>
    let d := t.distSq lat lon
    let best1 := if betterThan d best then some (t, d) else best
    let dim := depth % 2
    let q := qAxis dim lat lon
    let best2 :=
      if q < pv then get_nearest_recursive l lat lon (depth + 1) best1
      else get_nearest_recursive r lat lon (depth + 1) best1
    if pruneTest (pv - q) best2 then
      if q < pv then get_nearest_recursive r lat lon (depth + 1) best2
      else get_nearest_recursive l lat lon (depth + 1) best2
    else best2

/-- `KDTree.get_nearest(lat, lon)`: run the search from the root seeded
with `(None, float('inf'))` and return the record component. -/
def KDTree.get_nearest (root : KDT) (lat lon : ℚ) : Option MunicipalTree :=
  (get_nearest_recursive root lat lon 0 none).map Prod.fst

/-- `KDTree.build_tree` with its in-place effect made explicit: Python's
`data.sort(...)` reorders the caller's list, while the recursive calls
receive the slice *copies* `data[:median_idx]` and `data[median_idx+1:]`,
so only the top-level sort is observable by the caller.  The second
component is the final state of the argument list. -/
def build_treeS (data : List MunicipalTree) (depth : ℕ) : KDT × List MunicipalTree :=
  if h : data = [] then (.nil, data)
  else
    let dim := depth % 2
    let sorted := sortByAxis dim data
    let median_idx := data.length / 2
    have hlen : sorted.length = data.length := List.length_mergeSort data
    have hnz : data.length ≠ 0 := fun hz => h (List.eq_nil_of_length_eq_zero hz)
    have hm : median_idx < sorted.length := by
      rw [hlen]; exact Nat.div_lt_self (Nat.pos_of_ne_zero hnz) (by norm_num)
    let median_tree := sorted.get ⟨median_idx, hm⟩
    let pivot := axisVal dim median_tree
    (.node median_tree pivot
      (build_treeS (sorted.take median_idx) (depth + 1)).1
      (build_treeS (sorted.drop (median_idx + 1)) (depth + 1)).1,
     sorted)
termination_by data.length
decreasing_by
  · simp only [List.length_take, sortByAxis, List.length_mergeSort]
    omega
  · simp only [List.length_drop, sortByAxis, List.length_mergeSort]
    omega

/-- `p` holds of every record stored in the tree. -/
def KDT.allRecords (p : MunicipalTree → Bool) : KDT → Bool
  | .nil => true
  | .node t _ l r => p t && l.allRecords p && r.allRecords p

/-- The partition invariant exactly as the specification states it for a
tree rooted at depth `depth`: every record reachable through the left
child is *strictly* below the pivot on the node's axis, every record
through the right child is greater than or equal to it. -/
def invariantStrict : KDT → ℕ → Bool
  | .nil, _ => true
  | .node _ pv l r, depth =>
    l.allRecords (fun s => decide (axisVal (depth % 2) s < pv)) &&
    r.allRecords (fun s => decide (pv ≤ axisVal (depth % 2) s)) &&
    invariantStrict l (depth + 1) && invariantStrict r (depth + 1)

/-- The partition invariant that the built tree actually satisfies:
left-reachable records are *less than or equal to* the pivot on the
node's axis, right-reachable records are greater than or equal to it. -/
def invariantLE : KDT → ℕ → Bool
  | .nil, _ => true
  | .node _ pv l r, depth =>
    l.allRecords (fun s => decide (axisVal (depth % 2) s ≤ pv)) &&
    r.allRecords (fun s => decide (pv ≤ axisVal (depth % 2) s)) &&
    invariantLE l (depth + 1) && invariantLE r (depth + 1)

/-- `argsort(seq)` from `kdtree.py`:
`sorted(range(len(seq)), key=seq.__getitem__)`.  Python's `sorted` is a
stable ascending sort by the key, which `List.mergeSort` with a
left-biased `≤` comparison implements exactly. -/
def argsort (seq : List ℤ) : List ℕ :=
  (List.range seq.length).mergeSort (fun i j => decide (seq.getD i 0 ≤ seq.getD j 0))

/-- The error raised when a Point Record is built from a malformed
numeric field (the spec's `ParseError` taxonomy for the `ValueError`
of Python's numeric constructors). -/
inductive ParseError where
  | invalidNumeric (field : String) : ParseError
deriving DecidableEq, Repr

/-- Value of a nonempty all-digit character list, `none` otherwise. -/
def digitsToNat? : List Char → Option ℕ
  | [] => none
  | cs =>
    if cs.all (fun c => c.isDigit) then
      some (cs.foldl (fun acc c => 10 * acc + (c.toNat - ('0').toNat)) 0)
    else none

/-- Modelled from the spec: Python's `int(str)` constructor is external
to the repository; the spec only requires that a numeric field be "a
valid integer".  An optional sign followed by a nonempty digit string. -/
def parseIntPy? (s : String) : Option ℤ :=
  match s.toList with
  | '+' :: cs => (digitsToNat? cs).map (fun n => (n : ℤ))
  | '-' :: cs => (digitsToNat? cs).map (fun n => -(n : ℤ))
  | cs => (digitsToNat? cs).map (fun n => (n : ℤ))

/-- Digits with an optional decimal point: `dd`, `dd.dd`, `dd.`, `.dd`
(at least one digit overall), returned as an exact rational. -/
def mantissa? : List Char → Option ℚ
  | cs =>
    match cs.splitOn '.' with
    | [whole] => (digitsToNat? whole).map (fun n => (n : ℚ))
    | [whole, frac] =>
      match whole, frac with
      | [], [] => none
      | [], f => (digitsToNat? f).map (fun n => (n : ℚ) / (10 : ℚ) ^ f.length)
      | w, [] => (digitsToNat? w).map (fun n => (n : ℚ))
      | w, f =>
        match digitsToNat? w, digitsToNat? f with
        | some nw, some nf => some ((nw : ℚ) + (nf : ℚ) / (10 : ℚ) ^ f.length)
        | _, _ => none
    | _ => none

/-- An optional exponent part `e±dd` applied to a mantissa. -/
def applyExp? (m : ℚ) : List Char → Option ℚ
  | [] => some m
  | 'e' :: '+' :: cs => (digitsToNat? cs).map (fun n => m * 10 ^ n)
  | 'e' :: '-' :: cs => (digitsToNat? cs).map (fun n => m / 10 ^ n)
  | 'e' :: cs => (digitsToNat? cs).map (fun n => m * 10 ^ n)
  | _ => none

/-- Modelled from the spec: Python's `float(str)` constructor is external
to the repository; the spec only requires that a coordinate field be "a
valid float".  Optional sign, digits with an optional decimal point, and
an optional decimal exponent, as an exact rational (`inf`/`nan` spellings
are not modelled; no claim depends on them). -/
def parseFloatPy? (s : String) : Option ℚ :=
  let body := fun (cs : List Char) =>
    match cs.span (fun c => c ≠ 'e') with
    | (mant, rest) => (mantissa? mant).bind (fun m => applyExp? m rest)
  match s.toList with
  | '+' :: cs => body cs
  | '-' :: cs => (body cs).map (fun q => -q)
  | cs => body cs

/-- `MunicipalTree.__init__(id, ward, species, diameter, lon, lat)` from
`tree_utilities.py`: parse `int(id)`, `int(ward)`, `int(diameter)`,
`float(lon)`, `float(lat)` in source order, failing on the first field
that is not numeric; `species` is kept verbatim. -/
def MunicipalTree.ofStrings (id ward species diameter lon lat : String) :
    Except ParseError MunicipalTree :=
  match parseIntPy? id with
  | none => .error (.invalidNumeric id)
  | some i =>
    match parseIntPy? ward with
    | none => .error (.invalidNumeric ward)
    | some w =>
      match parseIntPy? diameter with
      | none => .error (.invalidNumeric diameter)
      | some d =>
        match parseFloatPy? lon with
        | none => .error (.invalidNumeric lon)
        | some lo =>
          match parseFloatPy? lat with
          | none => .error (.invalidNumeric lat)
          | some la => .ok ⟨i, w, species, d, lo, la⟩

/-- One step of the best-candidate update of
`_get_nearest_recursive`: replace the best only when the node's record
is *strictly* closer. -/
def nearestStep (lat lon : ℚ) (b : Best) (r : MunicipalTree) : Best :=
  if betterThan (r.distSq lat lon) b then some (r, r.distSq lat lon) else b

/-- `_get_nearest_recursive` instrumented with the order in which the
search visits (computes the distance of) the nodes: the node itself
first, then the near subtree, then — only when the pruning test lets the
search cross the splitting plane — the far subtree. -/
def nearestTrace : KDT → ℚ → ℚ → ℕ → Best → Best × List MunicipalTree
  | .nil, _, _, _, best => (best, [])
  | .node t pv l r, lat, lon, depth, best =>
    let best1 := nearestStep lat lon best t
    let dim := depth % 2
    let q := qAxis dim lat lon
    let near :=
      if q < pv then nearestTrace l lat lon (depth + 1) best1
      else nearestTrace r lat lon (depth + 1) best1
    if pruneTest (pv - q) near.1 then
      let far :=
        if q < pv then nearestTrace r lat lon (depth + 1) near.1
        else nearestTrace l lat lon (depth + 1) near.1
      (far.1, t :: near.2 ++ far.2)
    else (near.1, t :: near.2)

/-- Concrete records: two records sharing latitude 1 (only longitude
differs), the shape on which exact lookup loses a stored record. -/
def tOak : MunicipalTree := ⟨1, 1, "oak", 10, 1, 1⟩

/-- Second record at the same latitude as `tOak`. -/
def tAsh : MunicipalTree := ⟨2, 1, "ash", 10, 2, 1⟩

/-- Concrete record for the nearest-neighbour pruning counterexample:
far from the query in longitude, on the query's side of the root split. -/
def nFarLon : MunicipalTree := ⟨1, 1, "a", 1, 3.8, 0⟩

/-- Root record of the pruning counterexample. -/
def nRoot : MunicipalTree := ⟨2, 1, "b", 1, 3.5, 2⟩

/-- True nearest record of the pruning counterexample, on the far side
of the root split. -/
def nTrue : MunicipalTree := ⟨3, 1, "c", 1, 0, 3.5⟩

/-- Concrete record east of the query origin, tied in distance with
`wWest`: used to exhibit the first-arrival tie-break of `get_nearest`. -/
def wEast : MunicipalTree := ⟨1, 1, "east", 1, 0, 1⟩

/-- Concrete record west of the query origin, tied in distance with
`wEast`. -/
def wWest : MunicipalTree := ⟨2, 1, "west", 1, 0, -1⟩

/-! ## Helper lemmas -/

@[simp] theorem build_tree_nil (depth : ℕ) : build_tree [] depth = .nil := by
  rw [build_tree]; simp

theorem take_get_drop (s : List MunicipalTree) (m : ℕ) (hm : m < s.length) :
    s.take m ++ s.get ⟨m, hm⟩ :: s.drop (m + 1) = s := by
  conv_rhs => rw [← List.take_append_drop m s]
  rw [List.drop_eq_getElem_cons hm, List.get_eq_getElem]

theorem records_perm (data : List MunicipalTree) (depth : ℕ) :
    (build_tree data depth).records.Perm data := by
  induction data, depth using build_tree.induct with
  | case1 depth => simp [KDT.records]
  | case2 data depth h dim sorted median_idx hlen hnz hm ihl ihr =>
    rw [build_tree, dif_neg h]
    simp only [KDT.records]
    refine List.Perm.trans (List.Perm.append ihl (List.Perm.cons _ ihr)) ?_
    rw [take_get_drop]
    exact List.mergeSort_perm data _

theorem size_eq_records_length (t : KDT) : t.size = t.records.length := by
  induction t with
  | nil => rfl
  | node tr pv l r ihl ihr =>
    simp [KDT.size, KDT.records, ihl, ihr]
    omega

/-- The concrete two-record tree: both records share latitude `1`, the
stable sort keeps input order, the median (`tAsh`) becomes the root and
`tOak` — whose latitude *equals* the pivot — goes to the left child. -/
theorem two_tree : KDTree.init [tOak, tAsh] =
    .node tAsh 1 (.node tOak 1 .nil .nil) .nil := by
  norm_num [KDTree.init, build_tree, sortByAxis, List.mergeSort, tOak, tAsh,
    axisVal, List.merge]
  intro h
  exact absurd h (by simp)

/-- The concrete three-record tree of the pruning counterexample. -/
theorem three_tree : KDTree.init [nFarLon, nRoot, nTrue] =
    .node nRoot 2 (.node nFarLon (19/5 : ℚ) .nil .nil)
      (.node nTrue 0 .nil .nil) := by
  norm_num [KDTree.init, build_tree, sortByAxis, List.mergeSort, nFarLon,
    nRoot, nTrue, axisVal, List.merge]
  intro h
  exact absurd h (by simp)

/-! ## C1 -/

/-- C1: refuted on the code.  For the three records
`nFarLon = (lat 0, lon 3.8)`, `nRoot = (lat 2, lon 3.5)`,
`nTrue = (lat 3.5, lon 0)` and the query `(0, 0)`, `get_nearest` returns
`nFarLon` (Euclidean distance `3.8`) although the stored record `nTrue`
is strictly closer (distance `3.5`): the pruning test compares the
squared axis gap `(2-0)^2 = 4` against the *linear* best distance `3.8`
and wrongly discards the far subtree.  A brute-force scan disagrees with
`get_nearest` here, contradicting both the specification and the
method's own docstring. -/
theorem get_nearest_not_minimal :
    KDTree.get_nearest (KDTree.init [nFarLon, nRoot, nTrue]) 0 0 = some nFarLon ∧
    nTrue ∈ (KDTree.init [nFarLon, nRoot, nTrue]).records ∧
    nTrue.distSq 0 0 < nFarLon.distSq 0 0 := by
  rw [three_tree]
  refine ⟨?_, by simp [KDT.records], by norm_num [MunicipalTree.distSq, nFarLon, nTrue]⟩
  norm_num [KDTree.get_nearest, get_nearest_recursive, betterThan, pruneTest,
    qAxis, MunicipalTree.distSq, nFarLon, nRoot, nTrue]

/-! ## C2 -/

/-- C2: refuted on the code.  Build the tree from `tOak = (lat 1, lon 1)`
and `tAsh = (lat 1, lon 2)`.  The stable latitude sort keeps `[tOak, tAsh]`,
`tAsh` becomes the root with pivot `1`, and `tOak` goes *left* with an
axis value equal to the pivot.  The query `(1, 1)` — exactly `tOak`'s
coordinates — fails the rounded comparison at the root, then routes
*right* (`lat < pivot` is false) and falls off the tree, so `lookup`
returns `false` for a stored record. -/
theorem lookup_misses_stored_record :
    KDTree.lookup (KDTree.init [tOak, tAsh]) 1 1 = false ∧
    tOak ∈ (KDTree.init [tOak, tAsh]).records ∧
    tOak.lat = 1 ∧ tOak.lon = 1 := by
  rw [two_tree]
  refine ⟨?_, by simp [KDT.records], by simp [tOak], by simp [tOak]⟩
  norm_num [KDTree.lookup, lookup_recursive, round5, pyRoundHalfEven, qAxis,
    tOak, tAsh]

theorem allRecords_iff (p : MunicipalTree → Bool) (t : KDT) :
    t.allRecords p = true ↔ ∀ x ∈ t.records, p x = true := by
  induction t with
  | nil => simp [KDT.allRecords, KDT.records]
  | node tr pv l r ihl ihr =>
    simp only [KDT.allRecords, Bool.and_eq_true, ihl, ihr, KDT.records,
      List.mem_append, List.mem_cons]
    constructor
    · rintro ⟨⟨hp, hl⟩, hr⟩ x hx
      rcases hx with hx | hx | hx
      exacts [hl x hx, hx ▸ hp, hr x hx]
    · intro hx
      exact ⟨⟨hx tr (Or.inr (Or.inl rfl)), fun x hh => hx x (Or.inl hh)⟩,
        fun x hh => hx x (Or.inr (Or.inr hh))⟩

theorem sortByAxis_pairwise (dim : ℕ) (data : List MunicipalTree) :
    (sortByAxis dim data).Pairwise (fun a b => axisVal dim a ≤ axisVal dim b) := by
  have h := @List.sorted_mergeSort _
    (fun a b => decide (axisVal dim a ≤ axisVal dim b))
    (fun a b c hab hbc => by
      simp only [decide_eq_true_eq] at *
      exact le_trans hab hbc)
    (fun a b => by
      simp only [Bool.or_eq_true, decide_eq_true_eq]
      exact le_total _ _)
    data
  exact h.imp (fun hx => of_decide_eq_true hx)

theorem median_bounds (dim : ℕ) (data : List MunicipalTree)
    (hm : data.length / 2 < (sortByAxis dim data).length) :
    (∀ x ∈ (sortByAxis dim data).take (data.length / 2),
      axisVal dim x ≤ axisVal dim ((sortByAxis dim data).get ⟨data.length / 2, hm⟩)) ∧
    (∀ x ∈ (sortByAxis dim data).drop (data.length / 2 + 1),
      axisVal dim ((sortByAxis dim data).get ⟨data.length / 2, hm⟩) ≤ axisVal dim x) := by
  have hpw := sortByAxis_pairwise dim data
  rw [← take_get_drop (sortByAxis dim data) (data.length / 2) hm] at hpw
  rw [List.pairwise_append] at hpw
  obtain ⟨h1, h2, h3⟩ := hpw
  rw [List.pairwise_cons] at h2
  constructor
  · intro x hx
    exact h3 x hx _ (List.mem_cons_self _ _)
  · intro x hx
    exact h2.1 x hx

theorem build_tree_invariantLE (data : List MunicipalTree) (depth : ℕ) :
    invariantLE (build_tree data depth) depth = true := by
  induction data, depth using build_tree.induct with
  | case1 depth => simp [invariantLE]
  | case2 data depth h dim sorted median_idx hlen hnz hm ihl ihr =>
    rw [build_tree, dif_neg h]
    simp only [invariantLE, Bool.and_eq_true]
    refine ⟨⟨⟨?_, ?_⟩, ihl⟩, ihr⟩
    · rw [allRecords_iff]
      intro x hx
      have hx' := (records_perm _ _).mem_iff.mp hx
      exact decide_eq_true ((median_bounds (depth % 2) data hm).1 x hx')
    · rw [allRecords_iff]
      intro x hx
      have hx' := (records_perm _ _).mem_iff.mp hx
      exact decide_eq_true ((median_bounds (depth % 2) data hm).2 x hx')

/-! ## C3 -/

/-- C3, counterexample: the claim's *strict* left bound fails.  Building
from `tOak = (lat 1, lon 1)` and `tAsh = (lat 1, lon 2)` — equal
latitudes — puts `tOak` in the left child of the root with axis value
equal to the pivot `1`: records whose axis value equals the pivot are
not all placed on the right. -/
theorem build_tree_strict_invariant_fails :
    invariantStrict (KDTree.init [tOak, tAsh]) 0 = false := by
  rw [two_tree]
  decide

/-- C3, amended: in every tree produced by `build_tree`, every record
reachable through a node's left child has, on that node's splitting axis
(latitude at even depth, longitude at odd depth), a value *less than or
equal to* the node's pivot (equality occurs when several records share
the median's axis value: the stable sort can leave such records before
the median), and every record reachable through the right child has an
axis value greater than or equal to the pivot. -/
theorem build_tree_invariant :
    ∀ (data : List MunicipalTree) (depth : ℕ),
      invariantLE (build_tree data depth) depth = true :=
  fun data depth => build_tree_invariantLE data depth

/-! ## C4 -/

/-- C4: the tree built from any input collection stores exactly the
input records: its node count is the input length and the in-order list
of its records is a permutation of — i.e. has the same multiset as —
the input. -/
theorem build_tree_size_and_multiset (data : List MunicipalTree) :
    (KDTree.init data).size = data.length ∧
    (KDTree.init data).records.Perm data := by
  refine ⟨?_, records_perm data 0⟩
  rw [size_eq_records_length]
  exact (records_perm data 0).length_eq

theorem height_le_of_length_lt (data : List MunicipalTree) (depth : ℕ) :
    ∀ k : ℕ, data.length < 2 ^ k → (build_tree data depth).height ≤ k := by
  induction data, depth using build_tree.induct with
  | case1 depth => intro k hk; simp [KDT.height]
  | case2 data depth h dim sorted median_idx hlen hnz hm ihl ihr =>
    intro k hk
    match k with
    | 0 =>
      exfalso
      have : data.length = 0 := by omega
      exact hnz this
    | k + 1 =>
      rw [build_tree, dif_neg h]
      simp only [KDT.height]
      have hpow : (2 : ℕ) ^ (k + 1) = 2 * 2 ^ k := by ring
      have hl : (List.take (data.length / 2) (sortByAxis (depth % 2) data)).length < 2 ^ k := by
        simp only [List.length_take, sortByAxis, List.length_mergeSort]
        omega
      have hr : (List.drop (data.length / 2 + 1) (sortByAxis (depth % 2) data)).length < 2 ^ k := by
        simp only [List.length_drop, sortByAxis, List.length_mergeSort]
        omega
      have h1 : (build_tree (List.take (data.length / 2)
          (sortByAxis (depth % 2) data)) (depth + 1)).height ≤ k := ihl k hl
      have h2 : (build_tree (List.drop (data.length / 2 + 1)
          (sortByAxis (depth % 2) data)) (depth + 1)).height ≤ k := ihr k hr
      omega

/-! ## C5 -/

/-- C5: the tree built from any collection of `N` records has height at
most `⌈log₂ (N + 1)⌉` (`Nat.clog 2 (N + 1)`): the median split leaves at
most `⌊N / 2⌋` records on each side, so the height halves the remaining
count at every level. -/
theorem build_tree_height_le (data : List MunicipalTree) :
    (KDTree.init data).height ≤ Nat.clog 2 (data.length + 1) := by
  have hle := Nat.le_pow_clog (by norm_num : 1 < 2) (data.length + 1)
  exact height_le_of_length_lt data 0 _ (by omega)

/-! ## C6 -/

/-- C6: constructing a `KDTree` from the empty collection yields the
empty index (construction is a total function, so no error is possible),
and on that index `lookup` returns `false` and `get_nearest` returns no
candidate for every query point. -/
theorem empty_tree_queries :
    KDTree.init [] = .nil ∧
    (∀ lat lon : ℚ, KDTree.lookup (KDTree.init []) lat lon = false) ∧
    (∀ lat lon : ℚ, KDTree.get_nearest (KDTree.init []) lat lon = none) := by
  refine ⟨by simp [KDTree.init], ?_, ?_⟩
  · intro lat lon
    simp [KDTree.lookup, KDTree.init, lookup_recursive]
  · intro lat lon
    simp [KDTree.get_nearest, KDTree.init, get_nearest_recursive]

theorem argsort_trans (seq : List ℤ) : ∀ a b c : ℕ,
    (fun i j => decide (seq.getD i 0 ≤ seq.getD j 0)) a b = true →
    (fun i j => decide (seq.getD i 0 ≤ seq.getD j 0)) b c = true →
    (fun i j => decide (seq.getD i 0 ≤ seq.getD j 0)) a c = true := by
  intro a b c hab hbc
  simp only [decide_eq_true_eq] at *
  exact le_trans hab hbc

theorem argsort_total (seq : List ℤ) : ∀ a b : ℕ,
    ((fun i j => decide (seq.getD i 0 ≤ seq.getD j 0)) a b ||
     (fun i j => decide (seq.getD i 0 ≤ seq.getD j 0)) b a) = true := by
  intro a b
  simp only [Bool.or_eq_true, decide_eq_true_eq]
  exact le_total _ _

theorem pair_sublist_range {i j n : ℕ} (hij : i < j) (hj : j < n) :
    [i, j].Sublist (List.range n) := by
  have h1 : [i, j].Sublist (List.range (j + 1)) := by
    rw [List.range_succ]
    have h2 : [i].Sublist (List.range j) :=
      List.singleton_sublist.mpr (List.mem_range.mpr hij)
    simpa using h2.append (List.Sublist.refl [j])
  exact h1.trans (List.range_sublist.mpr hj)

/-! ## C7 -/

/-- C7: `argsort` returns a permutation of the indices `0..N-1` along
which the values are ascending, it is stable (two positions holding
equal values keep their original relative order in the output), and the
specification's three concrete examples hold. -/
theorem argsort_spec (seq : List ℤ) :
    (argsort seq).Perm (List.range seq.length) ∧
    ((argsort seq).map (fun i => seq.getD i 0)).Pairwise (· ≤ ·) ∧
    (∀ i j : ℕ, i < j → j < seq.length → seq.getD i 0 = seq.getD j 0 →
      [i, j].Sublist (argsort seq)) ∧
    argsort [] = [] ∧
    argsort [3, 1, 2] = [1, 2, 0] ∧
    argsort [8, 6, 7, 5, 3, 0, 9] = [5, 4, 3, 1, 2, 0, 6] := by
  refine ⟨List.mergeSort_perm _ _, ?_, ?_, ?_, ?_, ?_⟩
  · rw [List.pairwise_map]
    have h := List.sorted_mergeSort (argsort_trans seq) (argsort_total seq)
      (List.range seq.length)
    exact h.imp (fun hx => of_decide_eq_true hx)
  · intro i j hij hj heq
    refine List.pair_sublist_mergeSort (argsort_trans seq) (argsort_total seq) ?_ ?_
    · exact decide_eq_true (le_of_eq heq)
    · exact pair_sublist_range hij hj
  · simp [argsort]
  · have h3 : List.range 3 = [0, 1, 2] := rfl
    norm_num [argsort, h3, List.mergeSort, List.merge]
  · have h7 : List.range 7 = [0, 1, 2, 3, 4, 5, 6] := rfl
    norm_num [argsort, h7, List.mergeSort, List.merge]

/-- C7, witness: the stability clause applied to the concrete sequence
`[4, 2, 2, 3]` (the source's own doctest with a duplicated value): the
two equal values at positions 1 and 2 stay in input order. -/
theorem argsort_spec_witness : [1, 2].Sublist (argsort [4, 2, 2, 3]) :=
  (argsort_spec [4, 2, 2, 3]).2.2.1 1 2 (by norm_num) (by norm_num) (by decide)

/-! ## C8 -/

/-- C8: constructing a Point Record from raw string fields fails with a
`ParseError` exactly when one of the numeric fields (identifier, ward,
diameter, or either coordinate) is not a valid integer/float, and
succeeds otherwise; concretely, the source's own doctest inputs parse,
and a non-numeric identifier is rejected.  (All other core operations of
the embedding are total functions, so construction is the only failure
point.) -/
theorem parse_error_iff :
    (∀ id ward species diameter lon lat : String,
      (∃ t, MunicipalTree.ofStrings id ward species diameter lon lat = .ok t) ↔
      ((parseIntPy? id).isSome ∧ (parseIntPy? ward).isSome ∧
       (parseIntPy? diameter).isSome ∧ (parseFloatPy? lon).isSome ∧
       (parseFloatPy? lat).isSome)) ∧
    MunicipalTree.ofStrings "1" "1" "oak" "10" "1" "1" =
      .ok ⟨1, 1, "oak", 10, 1, 1⟩ ∧
    MunicipalTree.ofStrings "x1" "1" "oak" "10" "1" "1" =
      .error (.invalidNumeric "x1") ∧
    MunicipalTree.ofStrings "5216" "1" "Yew" "1" "-79.551765" "43.724121" =
      .ok ⟨5216, 1, "Yew", 1, -79551765/1000000, 43724121/1000000⟩ := by
  refine ⟨?_, by rfl, by rfl, ?_⟩
  · intro id ward species diameter lon lat
    unfold MunicipalTree.ofStrings
    rcases h1 : parseIntPy? id with _ | i <;>
      rcases h2 : parseIntPy? ward with _ | w <;>
        rcases h3 : parseIntPy? diameter with _ | d <;>
          rcases h4 : parseFloatPy? lon with _ | lo <;>
            rcases h5 : parseFloatPy? lat with _ | la <;>
              simp [Option.isSome]
  · have h : MunicipalTree.ofStrings "5216" "1" "Yew" "1" "-79.551765" "43.724121" =
        .ok ⟨5216, 1, "Yew", 1, -(((79 : ℕ) : ℚ) + ((551765 : ℕ) : ℚ) / (10 : ℚ) ^ 6),
          ((43 : ℕ) : ℚ) + ((724121 : ℕ) : ℚ) / (10 : ℚ) ^ 6⟩ := rfl
    rw [h]
    norm_num

theorem build_treeS_fst (data : List MunicipalTree) (depth : ℕ) :
    (build_treeS data depth).1 = build_tree data depth := by
  induction data, depth using build_treeS.induct with
  | case1 depth => simp [build_treeS, build_tree]
  | case2 data depth h dim sorted median_idx hlen hnz hm ihl ihr =>
    rw [build_treeS, build_tree, dif_neg h, dif_neg h]
    simp only []
    rw [ihl, ihr]

theorem build_treeS_snd (data : List MunicipalTree) (depth : ℕ) :
    (build_treeS data depth).2 = sortByAxis (depth % 2) data := by
  by_cases h : data = []
  · subst h
    rw [build_treeS]
    simp [sortByAxis]
  · rw [build_treeS, dif_neg h]

/-! ## C9 -/

/-- C9: building a `KDTree` leaves the caller's list in the state
produced by the depth-0 in-place sort: afterwards the list is the stable
ascending sort of the input by latitude (the depth-0 axis) — a
permutation of the input, latitude-sorted — while the recursive calls
only ever receive slice copies (`build_treeS` returns the same tree as
`build_tree`), so they cannot further change the caller's list; on a
concrete unsorted input the list is observably reordered. -/
theorem constructor_sorts_callers_list :
    (∀ data, (build_treeS data 0).1 = KDTree.init data) ∧
    (∀ data, (build_treeS data 0).2 = sortByAxis 0 data) ∧
    (∀ data, ((build_treeS data 0).2).Pairwise (fun a b => a.lat ≤ b.lat)) ∧
    (∀ data, ((build_treeS data 0).2).Perm data) ∧
    ((build_treeS [nRoot, nFarLon] 0).2 = [nFarLon, nRoot] ∧
      [nFarLon, nRoot] ≠ ([nRoot, nFarLon] : List MunicipalTree)) := by
  refine ⟨fun data => build_treeS_fst data 0, fun data => build_treeS_snd data 0,
    fun data => ?_, fun data => ?_, ?_, by decide⟩
  · rw [build_treeS_snd data 0]
    have h := sortByAxis_pairwise (0 % 2) data
    exact h.imp (fun hx => by simpa [axisVal] using hx)
  · rw [build_treeS_snd data 0]
    exact List.mergeSort_perm data _
  · rw [build_treeS_snd]
    norm_num [sortByAxis, List.mergeSort, List.merge, axisVal, nRoot, nFarLon]

theorem trace_fst (t : KDT) : ∀ (lat lon : ℚ) (depth : ℕ) (b : Best),
    (nearestTrace t lat lon depth b).1 = get_nearest_recursive t lat lon depth b := by
  induction t with
  | nil => intros; rfl
  | node tr pv l r ihl ihr =>
    intro lat lon depth b
    simp only [nearestTrace, get_nearest_recursive, nearestStep]
    by_cases hq : qAxis (depth % 2) lat lon < pv <;>
      simp only [hq, if_true, if_false, ihl, ihr] <;>
      split <;> split <;> rfl

theorem trace_fold (t : KDT) : ∀ (lat lon : ℚ) (depth : ℕ) (b : Best),
    (nearestTrace t lat lon depth b).1 =
      List.foldl (nearestStep lat lon) b (nearestTrace t lat lon depth b).2 := by
  induction t with
  | nil => intros; rfl
  | node tr pv l r ihl ihr =>
    intro lat lon depth b
    simp only [nearestTrace]
    by_cases hq : qAxis (depth % 2) lat lon < pv <;>
      simp only [hq, if_true, if_false] <;>
      split <;>
      simp only [List.foldl_cons, List.foldl_append, ← ihl, ← ihr]

theorem foldl_nearestStep_first_min (lat lon : ℚ) :
    ∀ (v : List MunicipalTree) (r0 : MunicipalTree),
    ∃ r1 : MunicipalTree,
      List.foldl (nearestStep lat lon) (some (r0, r0.distSq lat lon)) v =
        some (r1, r1.distSq lat lon) ∧
      ∃ v1 v2, r0 :: v = v1 ++ r1 :: v2 ∧
        (∀ x ∈ v1, r1.distSq lat lon < x.distSq lat lon) ∧
        (∀ x ∈ r0 :: v, r1.distSq lat lon ≤ x.distSq lat lon) := by
  intro v
  induction v with
  | nil =>
    intro r0
    exact ⟨r0, rfl, [], [], rfl, by simp, by simp⟩
  | cons r v ih =>
    intro r0
    by_cases hlt : r.distSq lat lon < r0.distSq lat lon
    · have hstep : nearestStep lat lon (some (r0, r0.distSq lat lon)) r =
          some (r, r.distSq lat lon) := by
        simp [nearestStep, betterThan, hlt]
      obtain ⟨r1, hfold, v1, v2, hdec, hstrict, hle⟩ := ih r
      refine ⟨r1, ?_, r0 :: v1, v2, ?_, ?_, ?_⟩
      · rw [List.foldl_cons, hstep]
        exact hfold
      · simp [← hdec]
      · intro x hx
        rcases List.mem_cons.mp hx with hx | hx
        · subst hx
          calc r1.distSq lat lon ≤ r.distSq lat lon :=
                hle r (List.mem_cons_self _ _)
            _ < x.distSq lat lon := hlt
        · exact hstrict x hx
      · intro x hx
        rcases List.mem_cons.mp hx with hx | hx
        · subst hx
          exact le_of_lt (lt_of_le_of_lt (hle r (List.mem_cons_self _ _)) hlt)
        · exact hle x hx
    · have hstep : nearestStep lat lon (some (r0, r0.distSq lat lon)) r =
          some (r0, r0.distSq lat lon) := by
        simp [nearestStep, betterThan, hlt]
      obtain ⟨r1, hfold, v1, v2, hdec, hstrict, hle⟩ := ih r0
      rw [List.foldl_cons, hstep]
      match v1, hdec with
      | [], hdec =>
        have hr1 : r1 = r0 := List.head_eq_of_cons_eq hdec.symm
        rw [hr1] at hfold hle
        refine ⟨r0, hfold, [], r :: v, rfl, by simp, ?_⟩
        intro x hx
        rcases List.mem_cons.mp hx with hx | hx
        · subst hx; exact le_refl _
        · rcases List.mem_cons.mp hx with hx | hx
          · subst hx; exact le_of_not_lt hlt
          · exact hle x (List.mem_cons_of_mem _ hx)
      | w :: v1t, hdec =>
        have hw : w = r0 := (List.head_eq_of_cons_eq hdec).symm
        have hv : v = v1t ++ r1 :: v2 := List.tail_eq_of_cons_eq hdec
        have hr0v1 : r0 ∈ w :: v1t := by rw [hw]; exact List.mem_cons_self _ _
        have hr1r0 : r1.distSq lat lon < r0.distSq lat lon := hstrict r0 hr0v1
        have hr1r : r1.distSq lat lon < r.distSq lat lon :=
          lt_of_lt_of_le hr1r0 (le_of_not_lt hlt)
        refine ⟨r1, hfold, r0 :: r :: v1t, v2, ?_, ?_, ?_⟩
        · simp [hv]
        · intro x hx
          rcases List.mem_cons.mp hx with hx | hx
          · subst hx; exact hr1r0
          · rcases List.mem_cons.mp hx with hx | hx
            · subst hx; exact hr1r
            · exact hstrict x (List.mem_cons_of_mem _ hx)
        · intro x hx
          rcases List.mem_cons.mp hx with hx | hx
          · subst hx; exact le_of_lt hr1r0
          · rcases List.mem_cons.mp hx with hx | hx
            · subst hx; exact le_of_lt hr1r
            · exact hle x (by rw [List.mem_cons]; exact Or.inr (hv ▸ hx))

/-- The concrete two-record tie tree: `wEast = (lat 1, lon 0)` and
`wWest = (lat -1, lon 0)` are both at distance `1` from the origin. -/
theorem tie_tree : KDTree.init [wEast, wWest] =
    .node wEast 1 (.node wWest 0 .nil .nil) .nil := by
  norm_num [KDTree.init, build_tree, sortByAxis, List.mergeSort, wEast, wWest,
    axisVal, List.merge]
  intro h
  exact absurd h (by simp)

/-! ## C10 -/

/-- C10: `get_nearest` breaks ties by first arrival.  The best candidate
is replaced only on a *strictly* smaller distance (`nearestStep`), so
the record returned is the first record, in the order in which the
search visits the nodes (`nearestTrace`), whose distance to the query is
minimal among all visited records: every record visited before it is
strictly farther, and no visited record is closer. -/
theorem get_nearest_first_arrival (t : KDT) (lat lon : ℚ) (r : MunicipalTree)
    (h : KDTree.get_nearest t lat lon = some r) :
    ∃ v1 v2, (nearestTrace t lat lon 0 none).2 = v1 ++ r :: v2 ∧
      (∀ x ∈ v1, r.distSq lat lon < x.distSq lat lon) ∧
      (∀ x ∈ (nearestTrace t lat lon 0 none).2, r.distSq lat lon ≤ x.distSq lat lon) := by
  obtain ⟨d, hd⟩ : ∃ d, get_nearest_recursive t lat lon 0 none = some (r, d) := by
    unfold KDTree.get_nearest at h
    cases hg : get_nearest_recursive t lat lon 0 none with
    | none =>
      rw [hg] at h
      exact Option.noConfusion h
    | some p =>
      rw [hg] at h
      have hp : p.1 = r := by simpa using h
      exact ⟨p.2, by rw [← hp]⟩
  have h2 := trace_fold t lat lon 0 none
  rw [trace_fst t lat lon 0 none, hd] at h2
  cases hv : (nearestTrace t lat lon 0 none).2 with
  | nil =>
    rw [hv, List.foldl_nil] at h2
    exact Option.noConfusion h2
  | cons r0 v =>
    rw [hv, List.foldl_cons] at h2
    have hstep : nearestStep lat lon none r0 = some (r0, r0.distSq lat lon) := rfl
    rw [hstep] at h2
    obtain ⟨r1, hfold, v1, v2, hdec, hstrict, hle⟩ :=
      foldl_nearestStep_first_min lat lon v r0
    rw [hfold] at h2
    have hr : r = r1 := by
      have hinj := (Option.some.injEq _ _).mp h2
      exact congrArg Prod.fst hinj
    refine ⟨v1, v2, ?_, ?_, ?_⟩
    · rw [hr]
      exact hdec
    · intro x hx
      rw [hr]
      exact hstrict x hx
    · intro x hx
      rw [hr]
      exact hle x hx

/-- C10, witness: on the tie tree (`wEast` and `wWest` both at distance
1 from the origin) the search visits the root `wEast` first and returns
it. -/
theorem get_nearest_first_arrival_witness :
    ∃ v1 v2,
      (nearestTrace (KDTree.init [wEast, wWest]) 0 0 0 none).2 = v1 ++ wEast :: v2 ∧
      (∀ x ∈ v1, wEast.distSq 0 0 < x.distSq 0 0) ∧
      (∀ x ∈ (nearestTrace (KDTree.init [wEast, wWest]) 0 0 0 none).2,
        wEast.distSq 0 0 ≤ x.distSq 0 0) :=
  get_nearest_first_arrival (KDTree.init [wEast, wWest]) 0 0 wEast
    (by
      rw [tie_tree]
      norm_num [KDTree.get_nearest, get_nearest_recursive, betterThan,
        pruneTest, qAxis, MunicipalTree.distSq, wEast, wWest])
